import Mathlib

/-!
Verification of the forecast engine in `services/prediction_service.py`.

The engine's numeric core is embedded shallowly:

* `_roll_forward_forecast` and `_cumulative_return` perform only field
  arithmetic on Python floats, so they are modelled exactly over `ℚ`
  (`roll_forward_forecast`, `cumulative_return`).
* the confidence heuristic and the `predict` orchestration use `exp`,
  `sqrt` and a sample standard deviation, so they are modelled over `ℝ`,
  with `Option ℝ` for float values (`none` marks a non-finite float such
  as the NaN produced by `pandas.Series.std()` on fewer than two points).
* Python exceptions (`ValueError`, `IndexError`, `ZeroDivisionError`) are
  modelled with `Except PyErr`.
* Python's negative-index slicing `xs[-w:]` and `pandas` `tail(n)` are
  modelled by `pySliceLast` and `pyTail`, including their behaviour at
  zero and negative arguments.
-/

namespace ForecastEngine

/-- Python exceptions raised by the engine's numeric core. -/
inductive PyErr : Type where
  | valueError : PyErr
  | indexError : PyErr
  | zeroDivisionError : PyErr
deriving DecidableEq, Repr

instance {ε α : Type} [DecidableEq ε] [DecidableEq α] : DecidableEq (Except ε α) := fun
  | .error a, .error b =>
    if h : a = b then .isTrue (h ▸ rfl) else .isFalse (fun hh => h (Except.error.inj hh))
  | .error _, .ok _ => .isFalse (fun hh => Except.noConfusion hh)
  | .ok _, .error _ => .isFalse (fun hh => Except.noConfusion hh)
  | .ok a, .ok b =>
    if h : a = b then .isTrue (h ▸ rfl) else .isFalse (fun hh => h (Except.ok.inj hh))

/-- Python slice `xs[-w:]` for an integer `w`: for `w ≤ 0` it is `xs[(-w):]`
(in particular `xs[-0:]` is the whole list), for `w > 0` it is the last
`w` elements (the whole list when `w ≥ len(xs)`). -/
def pySliceLast {α : Type} (xs : List α) (w : ℤ) : List α :=
  if w ≤ 0 then xs.drop (-w).toNat else xs.drop (xs.length - w.toNat)

/-- `pandas` `tail(n)` for an integer `n`: the last `n` rows for `n ≥ 0`
(all rows when `n ≥ len`), and all rows except the first `-n` for `n < 0`. -/
def pyTail {α : Type} (xs : List α) (n : ℤ) : List α :=
  if 0 ≤ n then xs.drop (xs.length - n.toNat) else xs.drop (-n).toNat

/-- `np.mean` on a list of exact values. -/
def qmean (xs : List ℚ) : ℚ := xs.sum / (xs.length : ℚ)

/-- Loop body of `_roll_forward_forecast`: `for _ in range(steps)` over the
working list `prices`; raises `ValueError("insufficient window length for
forecasting")` when the working list is shorter than `window`, otherwise
appends the mean of `prices[-window:]` to the output and to the working
list. -/
def roll_forward_go (window : ℤ) : List ℚ → ℕ → Except PyErr (List ℚ)
  | _, 0 => .ok []
  | prices, n + 1 =>
    if (prices.length : ℤ) < window then .error .valueError
    else
      let next := qmean (pySliceLast prices window)
      match roll_forward_go window (prices ++ [next]) n with
      | .error e => .error e
      | .ok rest => .ok (next :: rest)

/-- `PredictionService._roll_forward_forecast(last_known_prices, window, steps)`
modelled over `ℚ`; `range(steps)` runs `steps.toNat` iterations. -/
def roll_forward_forecast (last_known_prices : List ℚ) (window steps : ℤ) :
    Except PyErr (List ℚ) :=
  roll_forward_go window last_known_prices steps.toNat

/-- `PredictionService._cumulative_return(current_price, future_prices)`
modelled over `ℚ`: empty path returns `0.0` before any division; a zero
current price with a non-empty path raises `ZeroDivisionError` (Python
float division). -/
def cumulative_return (current_price : ℚ) (future_prices : List ℚ) :
    Except PyErr ℚ :=
  if future_prices.isEmpty then .ok 0
  else if current_price = 0 then .error .zeroDivisionError
  else .ok (future_prices.getLastD 0 / current_price - 1)

/-- The last `w` elements of a list (used to state what "arithmetic mean of
the last `W` elements of the working sequence" means in the spec). -/
def lastWindow (xs : List ℚ) (w : ℕ) : List ℚ := xs.drop (xs.length - w)

theorem pySliceLast_pos (xs : List ℚ) (w : ℤ) (hw : 1 ≤ w) :
    pySliceLast xs w = lastWindow xs w.toNat := by
  unfold pySliceLast lastWindow
  rw [if_neg (by omega)]

theorem roll_go_spec (window : ℤ) (hW : 1 ≤ window) :
    ∀ (n : ℕ) (prices : List ℚ), window ≤ (prices.length : ℤ) →
    ∃ l, roll_forward_go window prices n = .ok l ∧ l.length = n ∧
      ∀ k (hk : k < l.length),
        l.get ⟨k, hk⟩ = qmean (lastWindow (prices ++ l.take k) window.toNat) := by
  intro n
  induction n with
  | zero =>
    intro prices _
    exact ⟨[], rfl, rfl, fun k hk => absurd hk (by simp)⟩
  | succ n ih =>
    intro prices hlen
    have hnot : ¬ ((prices.length : ℤ) < window) := not_lt.mpr hlen
    have hlen2 : window ≤ (((prices ++ [qmean (pySliceLast prices window)]).length : ℕ) : ℤ) := by
      rw [List.length_append]
      push_cast
      omega
    obtain ⟨rest, hrest, hlenr, hget⟩ := ih (prices ++ [qmean (pySliceLast prices window)]) hlen2
    refine ⟨qmean (pySliceLast prices window) :: rest, ?_, by simp [hlenr], ?_⟩
    · simp only [roll_forward_go]
      rw [if_neg hnot, hrest]
    · intro k hk
      cases k with
      | zero =>
        simp only [List.get, List.take_zero, List.append_nil]
        rw [pySliceLast_pos prices window hW]
      | succ k =>
        have hk2 : k < rest.length := by simpa using hk
        have := hget k hk2
        simp only [List.get, List.take_succ_cons]
        rw [this]
        congr 1
        rw [List.append_assoc]
        rfl

/-- C3: with a window `W ≥ 1`, a history of length `≥ W` and `S ≥ 0` steps,
`_roll_forward_forecast` returns exactly `S` values, the `k`-th being the
arithmetic mean of the last `W` elements of the working sequence made of the
history followed by the previously produced predictions. -/
theorem roll_forward_forecast_spec (prices : List ℚ) (window steps : ℤ)
    (hW : 1 ≤ window) (hlen : window ≤ (prices.length : ℤ)) (hS : 0 ≤ steps) :
    ∃ l, roll_forward_forecast prices window steps = .ok l ∧
      (l.length : ℤ) = steps ∧
      ∀ k (hk : k < l.length),
        l.get ⟨k, hk⟩ = qmean (lastWindow (prices ++ l.take k) window.toNat) := by
  obtain ⟨l, h1, h2, h3⟩ := roll_go_spec window hW steps.toNat prices hlen
  exact ⟨l, h1, by rw [h2]; exact Int.toNat_of_nonneg hS, h3⟩

/-- Witness for C3 at the spec's own example input. -/
theorem roll_forward_forecast_spec_witness :
    ∃ l, roll_forward_forecast [100, 101, 102, 103, 104] 3 2 = .ok l ∧
      (l.length : ℤ) = 2 ∧
      ∀ k (hk : k < l.length),
        l.get ⟨k, hk⟩ =
          qmean (lastWindow ([100, 101, 102, 103, 104] ++ l.take k) (3 : ℤ).toNat) :=
  roll_forward_forecast_spec [100, 101, 102, 103, 104] 3 2 (by decide) (by decide)
    (by decide)

/-- C4 counterexample: the first predicted value is exactly `103`, and the
second is `(103 + 104 + 103)/3 = 310/3`, which differs from the value
`(102 + 103 + 104.333…)/3` stated by the spec. -/
theorem roll_forward_example_cex :
    roll_forward_forecast [100, 101, 102, 103, 104] 3 2 = .ok [103, 310 / 3] ∧
    (310 / 3 : ℚ) ≠ (102 + 103 + (104 + 1 / 3)) / 3 := by
  constructor
  · simp [roll_forward_forecast, roll_forward_go, pySliceLast, qmean]
    norm_num
  · norm_num

/-- C4 amended: `_roll_forward_forecast([100,101,102,103,104], 3, 2)` is
`[103.0, (103 + 104 + 103)/3]` — the second step averages the window
`[103, 104, 103.0]` containing the appended first prediction. -/
theorem roll_forward_example_amended :
    roll_forward_forecast [100, 101, 102, 103, 104] 3 2 =
      .ok [103, (103 + 104 + 103) / 3] := by
  simp [roll_forward_forecast, roll_forward_go, pySliceLast, qmean]
  norm_num

/-- C5 counterexample: with `steps = 0` the function returns `[]` without
raising, even when the history is shorter than the window. -/
theorem roll_forward_zero_steps_cex :
    roll_forward_forecast ([] : List ℚ) 3 0 = .ok [] ∧
    (([] : List ℚ).length : ℤ) < 3 :=
  ⟨rfl, by decide⟩

/-- C5 amended: with a history shorter than the window,
`_roll_forward_forecast` raises `ValueError` for every `steps ≥ 1`, returns
`[]` (exactly zero values) for `steps = 0`, and never returns a list of
fewer than `steps` values. -/
theorem roll_forward_insufficient_window (prices : List ℚ) (window steps : ℤ)
    (h : (prices.length : ℤ) < window) :
    (1 ≤ steps → roll_forward_forecast prices window steps = .error .valueError) ∧
    roll_forward_forecast prices window 0 = .ok [] ∧
    (∀ l, roll_forward_forecast prices window steps = .ok l →
      steps ≤ (l.length : ℤ)) := by
  have herr : 1 ≤ steps → roll_forward_forecast prices window steps = .error .valueError := by
    intro hS
    have hsplit : steps.toNat = (steps.toNat - 1) + 1 := by omega
    unfold roll_forward_forecast
    rw [hsplit]
    simp only [roll_forward_go]
    rw [if_pos h]
  refine ⟨herr, rfl, ?_⟩
  intro l hl
  by_cases hS : 1 ≤ steps
  · rw [herr hS] at hl
    exact absurd hl (fun hh => Except.noConfusion hh)
  · have ht : steps.toNat = 0 := by omega
    unfold roll_forward_forecast at hl
    rw [ht] at hl
    simp only [roll_forward_go] at hl
    have : ([] : List ℚ) = l := Except.ok.inj hl
    rw [← this]
    simp
    omega

/-- Witness for C5 at `prices = []`, `window = 3`, `steps = 1`. -/
theorem roll_forward_insufficient_window_witness :
    (1 ≤ (1 : ℤ) → roll_forward_forecast ([] : List ℚ) 3 1 = .error .valueError) ∧
    roll_forward_forecast ([] : List ℚ) 3 0 = .ok [] ∧
    (∀ l, roll_forward_forecast ([] : List ℚ) 3 1 = .ok l → 1 ≤ (l.length : ℤ)) :=
  roll_forward_insufficient_window [] 3 1 (by decide)

/-- C6: `_cumulative_return` returns `last/current - 1` on a non-empty path
(for a nonzero current price), `0.03` on the spec's example, and exactly `0`
on an empty path for every current price. -/
theorem cumulative_return_spec (c : ℚ) (p : List ℚ) (hp : p ≠ []) (hc : c ≠ 0) :
    cumulative_return c p = .ok (p.getLastD 0 / c - 1) ∧
    cumulative_return 100 [101, 102, 103] = .ok (3 / 100) ∧
    ∀ c0 : ℚ, cumulative_return c0 [] = .ok 0 := by
  refine ⟨?_, by norm_num [cumulative_return], fun c0 => rfl⟩
  cases p with
  | nil => exact absurd rfl hp
  | cons a t => simp [cumulative_return, hc]

/-- Witness for C6 at the spec's example input. -/
theorem cumulative_return_spec_witness :
    cumulative_return 100 [101, 102, 103] =
      .ok (([101, 102, 103] : List ℚ).getLastD 0 / 100 - 1) ∧
    cumulative_return 100 [101, 102, 103] = .ok (3 / 100) ∧
    ∀ c0 : ℚ, cumulative_return c0 [] = .ok 0 :=
  cumulative_return_spec 100 [101, 102, 103] (by decide) (by decide)

noncomputable section

/-- A Python float value: `none` marks a non-finite result (NaN). -/
abbrev FVal : Type := Option ℝ

def fadd : FVal → FVal → FVal
  | some a, some b => some (a + b)
  | _, _ => none

def fsub : FVal → FVal → FVal
  | some a, some b => some (a - b)
  | _, _ => none

def fmul : FVal → FVal → FVal
  | some a, some b => some (a * b)
  | _, _ => none

def fneg : FVal → FVal
  | some a => some (-a)
  | none => none

def fabs : FVal → FVal
  | some a => some |a|
  | none => none

/-- Float division with NaN propagation; division by zero is collapsed to
`none` as well (the engine's paths only divide by provably nonzero
denominators, so the inf/NaN distinction is never observable here). -/
def fdiv : FVal → FVal → FVal
  | some a, some b => if b = 0 then none else some (a / b)
  | _, _ => none

/-- Python `x > 0` on a float: False when `x` is NaN. -/
def fgt0 : FVal → Bool
  | some a => decide (0 < a)
  | none => false

/-- `np.sqrt` of an integer: NaN for negative input. -/
def fsqrtz (n : ℤ) : FVal := if n < 0 then none else some (Real.sqrt (n : ℝ))

def pct_change_go (prev : ℝ) : List ℝ → List FVal
  | [] => []
  | y :: t => some (y / prev - 1) :: pct_change_go y t

/-- `pandas` `Series.pct_change()`: first entry NaN, then `x_t/x_{t-1} - 1`. -/
def pct_change : List ℝ → List FVal
  | [] => []
  | x :: t => none :: pct_change_go x t

/-- `pandas` `Series.std()` (sample standard deviation, `ddof = 1`): NaN on
fewer than two points. -/
def stdF (xs : List ℝ) : FVal :=
  if xs.length < 2 then none
  else some (Real.sqrt
    ((xs.map (fun x => (x - xs.sum / (xs.length : ℝ)) ^ 2)).sum /
      ((xs.length : ℝ) - 1)))

/-- The logistic map applied to the scaled statistic in
`_calculate_confidence`. -/
def sigmoid (z : ℝ) : ℝ := 1 / (1 + Real.exp (-z))

/-- `PredictionService._calculate_confidence(s_close, i_close, spread,
lookback_days, horizon_days)`: spread history = elementwise difference of
the two `pct_change` series, NaNs dropped, last `lookback_days` kept;
`denom = max(std, 1e-4)` (Python `max` keeps a NaN first argument);
`z = |spread| / (denom * sqrt(horizon_days))`; result `= 1/(1+exp(-z))`. -/
def calculate_confidence (s_close i_close : List ℝ) (spread : FVal)
    (lookback_days horizon_days : ℤ) : FVal :=
  let spread_hist := pyTail
    (List.filterMap id (List.zipWith fsub (pct_change s_close) (pct_change i_close)))
    lookback_days
  let denom := Option.map (fun v => max v (1 / 10000)) (stdF spread_hist)
  let z := fdiv (fabs spread) (fmul denom (fsqrtz horizon_days))
  Option.map sigmoid z

end

theorem sigmoid_mono {z1 z2 : ℝ} (h : z1 ≤ z2) : sigmoid z1 ≤ sigmoid z2 := by
  unfold sigmoid
  apply one_div_le_one_div_of_le (by positivity)
  have : Real.exp (-z2) ≤ Real.exp (-z1) := Real.exp_le_exp.mpr (by linarith)
  linarith

theorem sigmoid_nonneg (z : ℝ) : 0 ≤ sigmoid z := by
  unfold sigmoid
  positivity

theorem sigmoid_lt_one (z : ℝ) : sigmoid z < 1 := by
  unfold sigmoid
  rw [div_lt_one (by positivity)]
  have := Real.exp_pos (-z)
  linarith

theorem sigmoid_zero : sigmoid 0 = 1 / 2 := by
  unfold sigmoid
  rw [neg_zero, Real.exp_zero]
  norm_num

theorem sigmoid_ge_half {z : ℝ} (hz : 0 ≤ z) : 1 / 2 ≤ sigmoid z := by
  have h := sigmoid_mono hz
  rw [sigmoid_zero] at h
  exact h

/-- C1 (code bug): with `lookback_days = 2` the spread history retains a
single valid point, `pandas` `std()` is NaN, Python's `max(NaN, 1e-4)` keeps
the NaN, and `_calculate_confidence` returns NaN — not a number in
`[0, 1]`. -/
theorem calculate_confidence_nan_short_history :
    calculate_confidence [100, 101] [100, 100] (some (1 / 100)) 2 5 = none := rfl

/-- C2 counterexample: the transform actually applied by
`_calculate_confidence` sends `z = 0` to `1/2`, not to `0`. -/
theorem sigmoid_zero_cex : sigmoid 0 = 1 / 2 ∧ (1 / 2 : ℝ) ≠ 0 :=
  ⟨sigmoid_zero, by norm_num⟩

/-- C2 amended: the transform `z ↦ 1/(1+exp(-z))` is monotone
non-decreasing and bounded in `[0,1]`, but it maps `z = 0` to `1/2` (the
logistic sigmoid is anchored at `1/2`, not at `0`). -/
theorem sigmoid_transform_props (z1 z2 : ℝ) (h : z1 ≤ z2) :
    sigmoid z1 ≤ sigmoid z2 ∧ (0 ≤ sigmoid z1 ∧ sigmoid z1 ≤ 1) ∧
    sigmoid 0 = 1 / 2 :=
  ⟨sigmoid_mono h, ⟨sigmoid_nonneg z1, le_of_lt (sigmoid_lt_one z1)⟩, sigmoid_zero⟩

/-- Witness for C2 at `z1 = 0`, `z2 = 1`. -/
theorem sigmoid_transform_props_witness :
    sigmoid 0 ≤ sigmoid 1 ∧ (0 ≤ sigmoid 0 ∧ sigmoid 0 ≤ 1) ∧
    sigmoid 0 = 1 / 2 :=
  sigmoid_transform_props 0 1 (by norm_num)

noncomputable section

/-- `np.sum` over float values (NaN absorbing). -/
def sumF : List FVal → FVal
  | [] => some 0
  | x :: t => fadd x (sumF t)

/-- `np.mean` over float values: NaN on the empty list, NaN absorbing. -/
def fmean (xs : List FVal) : FVal :=
  if xs.isEmpty then none else fdiv (sumF xs) (some (xs.length : ℝ))

/-- Loop of `_roll_forward_forecast` over float values (same code as the
`ℚ` model `roll_forward_go`; used on the `predict` path, where windows can
be degenerate and NaNs can enter the working list). -/
def roll_forward_go_F (window : ℤ) : List FVal → ℕ → Except PyErr (List FVal)
  | _, 0 => .ok []
  | prices, n + 1 =>
    if (prices.length : ℤ) < window then .error .valueError
    else
      let next := fmean (pySliceLast prices window)
      match roll_forward_go_F window (prices ++ [next]) n with
      | .error e => .error e
      | .ok rest => .ok (next :: rest)

/-- `_roll_forward_forecast` over float values. -/
def roll_forward_forecast_F (last_known_prices : List FVal) (window steps : ℤ) :
    Except PyErr (List FVal) :=
  roll_forward_go_F window last_known_prices steps.toNat

/-- `_cumulative_return` over float values. -/
def cumulative_return_F (current_price : ℝ) (future_prices : List FVal) :
    Except PyErr FVal :=
  if future_prices.isEmpty then .ok (some 0)
  else if current_price = 0 then .error .zeroDivisionError
  else .ok (fsub (fdiv (future_prices.getLastD none) (some current_price)) (some 1))

/-- Modelled from the spec: `services.model.ForecastResult` (the module is
not under `src/`) — an immutable value object with a boolean `prediction`
and a float `confidence`. -/
structure ForecastResult where
  prediction : Bool
  confidence : FVal

/-- `PredictionService._calculate_future_prediction(stock_close,
sp500_close, lookback_days, horizon_days)`: takes the latest close of each
series (`iloc[-1]`, `IndexError` on an empty series), rolls both forecasts
forward and converts each path to a cumulative return. -/
def calculate_future_prediction (stock_close sp500_close : List ℝ)
    (lookback_days horizon_days : ℤ) : Except PyErr (FVal × FVal) :=
  match stock_close.getLast?, sp500_close.getLast? with
  | some stock_latest, some sp500_latest =>
    match roll_forward_forecast_F (stock_close.map some) lookback_days horizon_days with
    | .error e => .error e
    | .ok stock_pred_path =>
      match roll_forward_forecast_F (sp500_close.map some) lookback_days horizon_days with
      | .error e => .error e
      | .ok sp500_pred_path =>
        match cumulative_return_F stock_latest stock_pred_path with
        | .error e => .error e
        | .ok stock_cumulative =>
          match cumulative_return_F sp500_latest sp500_pred_path with
          | .error e => .error e
          | .ok sp500_cumulative => .ok (stock_cumulative, sp500_cumulative)
  | _, _ => .error .indexError

/-- `PredictionService.predict` from the sufficiency check on (lines
100–119): the two inputs are the date-filtered, ascending close series; if
the subject series is shorter than `lookback_days` the insufficient-data
result `(False, 0.0)` is returned, otherwise both series are
trailing-windowed with `tail(lookback_days)` and the spread, prediction and
confidence are computed. -/
def predictResolved (stock_data sp500_data : List ℝ)
    (lookback_days horizon_days : ℤ) : Except PyErr ForecastResult :=
  if (stock_data.length : ℤ) < lookback_days then .ok ⟨false, some 0⟩
  else
    let stock_close := pyTail stock_data lookback_days
    let sp500_close := pyTail sp500_data lookback_days
    match calculate_future_prediction stock_close sp500_close lookback_days horizon_days with
    | .error e => .error e
    | .ok (stock_cumulative, sp500_cumulative) =>
      let spread := fsub stock_cumulative sp500_cumulative
      .ok ⟨fgt0 spread,
        calculate_confidence stock_close sp500_close spread lookback_days horizon_days⟩

/-- Python `x or d` on an optional integer parameter: `None` and `0` are
both falsy and replaced by the default `d`. -/
def pyOrDefault (x : Option ℤ) (d : ℤ) : ℤ :=
  match x with
  | none => d
  | some v => if v = 0 then d else v

/-- `PredictionService.predict(symbol, requested_date, lookback_days,
horizon_days)` after the data fetch: parameter resolution with Python `or`
(`lookback_days or self.k`, `horizon_days or
self.number_of_future_trading_days`, defaults 10 and 5), then the
resolved pipeline. -/
def predict (stock_data sp500_data : List ℝ)
    (lookback_days horizon_days : Option ℤ) : Except PyErr ForecastResult :=
  predictResolved stock_data sp500_data (pyOrDefault lookback_days 10)
    (pyOrDefault horizon_days 5)

end

/-- C7: whenever the filtered subject series is shorter than the resolved
`lookback_days`, `predict` returns `(False, 0.0)` without raising,
whatever the benchmark series contains. -/
theorem predict_insufficient_data (stock_data sp500_data : List ℝ)
    (lookback_days horizon_days : Option ℤ)
    (h : (stock_data.length : ℤ) < pyOrDefault lookback_days 10) :
    predict stock_data sp500_data lookback_days horizon_days = .ok ⟨false, some 0⟩ := by
  unfold predict predictResolved
  rw [if_pos h]

/-- Witness for C7: one row of subject data against an empty benchmark. -/
theorem predict_insufficient_data_witness :
    predict [100] [] (some 3) (some 1) = .ok ⟨false, some 0⟩ :=
  predict_insufficient_data [100] [] (some 3) (some 1) (by decide)

/-- C8 counterexample: a negative lookback is not rejected — `predict`
completes and returns a result (with NaN confidence) instead of raising a
precondition error. -/
theorem predict_nonpositive_no_raise_cex :
    predict [100, 100] [100, 100] (some (-1)) (some 1) = .ok ⟨false, none⟩ := by
  norm_num [predict, predictResolved, pyOrDefault, pyTail,
    calculate_future_prediction, roll_forward_forecast_F, roll_forward_go_F,
    pySliceLast, fmean, sumF, fadd, fdiv, cumulative_return_F, fsub, fabs,
    fgt0, calculate_confidence, pct_change, pct_change_go, stdF, fsqrtz, fmul]

/-- C8 amended: `predict` never treats non-positive window parameters as a
precondition violation: a `0` lookback or horizon is silently coerced by
Python `or` to the defaults 10 and 5. -/
theorem predict_param_coercion :
    (∀ (stock_data sp500_data : List ℝ) (hz : Option ℤ),
      predict stock_data sp500_data (some 0) hz =
        predictResolved stock_data sp500_data 10 (pyOrDefault hz 5)) ∧
    (∀ (stock_data sp500_data : List ℝ) (lb : Option ℤ),
      predict stock_data sp500_data lb (some 0) =
        predictResolved stock_data sp500_data (pyOrDefault lb 10) 5) :=
  ⟨fun _ _ _ => rfl, fun _ _ _ => rfl⟩

theorem zipWith_fsub_swap : ∀ xs ys : List FVal,
    List.zipWith fsub ys xs = List.map fneg (List.zipWith fsub xs ys) := by
  intro xs
  induction xs with
  | nil => intro ys; cases ys <;> simp
  | cons x xt ih =>
    intro ys
    cases ys with
    | nil => simp
    | cons y yt =>
      simp only [List.zipWith, List.map, ih yt]
      congr 1
      cases x <;> cases y <;> simp [fsub, fneg]

theorem filterMap_id_map_fneg : ∀ l : List FVal,
    List.filterMap id (List.map fneg l) = List.map Neg.neg (List.filterMap id l) := by
  intro l
  induction l with
  | nil => rfl
  | cons x t ih => cases x <;> simp [fneg, ih]

theorem pyTail_map {α β : Type} (f : α → β) (xs : List α) (n : ℤ) :
    pyTail (List.map f xs) n = List.map f (pyTail xs n) := by
  unfold pyTail
  rw [List.length_map]
  split <;> exact (List.map_drop f xs _).symm

theorem list_sum_map_neg (l : List ℝ) : (List.map Neg.neg l).sum = -l.sum := by
  induction l with
  | nil => simp
  | cons x t ih => simp [ih]; ring

theorem stdF_map_neg (l : List ℝ) : stdF (List.map Neg.neg l) = stdF l := by
  unfold stdF
  rw [List.length_map]
  split
  · rfl
  · congr 2
    rw [list_sum_map_neg, List.map_map]
    have hfun : ((fun x => (x - -l.sum / (l.length : ℝ)) ^ 2) ∘ Neg.neg) =
        fun x : ℝ => (x - l.sum / (l.length : ℝ)) ^ 2 := by
      funext x
      simp only [Function.comp]
      ring
    rw [hfun]

theorem fabs_fneg (x : FVal) : fabs (fneg x) = fabs x := by
  cases x <;> simp [fabs, fneg, abs_neg]

theorem calculate_confidence_swap (s_close i_close : List ℝ) (x : FVal)
    (lb hz : ℤ) :
    calculate_confidence i_close s_close (fneg x) lb hz =
      calculate_confidence s_close i_close x lb hz := by
  simp only [calculate_confidence]
  rw [zipWith_fsub_swap (pct_change s_close) (pct_change i_close),
    filterMap_id_map_fneg, pyTail_map, stdF_map_neg, fabs_fneg]

theorem sumF_map_some : ∀ l : List ℝ, sumF (List.map some l) = some l.sum := by
  intro l
  induction l with
  | nil => simp [sumF]
  | cons x t ih => simp [sumF, fadd, ih]

theorem fmean_map_some (l : List ℝ) (hl : l ≠ []) :
    fmean (List.map some l) = some (l.sum / (l.length : ℝ)) := by
  unfold fmean
  rw [sumF_map_some, if_neg (by simp [hl]), List.length_map]
  simp only [fdiv]
  rw [if_neg (by simp [Nat.cast_eq_zero, List.length_eq_zero, hl])]

theorem pySliceLast_map {α β : Type} (f : α → β) (xs : List α) (w : ℤ) :
    pySliceLast (List.map f xs) w = List.map f (pySliceLast xs w) := by
  unfold pySliceLast
  rw [List.length_map]
  split <;> exact (List.map_drop f xs _).symm

theorem pySliceLast_ne_nil (xs : List ℝ) (w : ℤ) (hw : 1 ≤ w)
    (hlen : w ≤ (xs.length : ℤ)) : pySliceLast xs w ≠ [] := by
  unfold pySliceLast
  rw [if_neg (by omega)]
  intro hcontra
  have := congrArg List.length hcontra
  rw [List.length_drop] at this
  simp only [List.length_nil] at this
  omega

theorem roll_go_F_ok (window : ℤ) (hW : 1 ≤ window) :
    ∀ (n : ℕ) (prices : List ℝ), window ≤ (prices.length : ℤ) →
    ∃ out : List ℝ,
      roll_forward_go_F window (List.map some prices) n = .ok (List.map some out) := by
  intro n
  induction n with
  | zero => intro prices _; exact ⟨[], rfl⟩
  | succ n ih =>
    intro prices hlen
    have hnot : ¬ (((List.map some prices).length : ℤ) < window) := by
      rw [List.length_map]; exact not_lt.mpr hlen
    have hne : pySliceLast prices window ≠ [] := pySliceLast_ne_nil prices window hW hlen
    have hmean : fmean (pySliceLast (List.map some prices) window) =
        some ((pySliceLast prices window).sum / ((pySliceLast prices window).length : ℝ)) := by
      rw [pySliceLast_map]; exact fmean_map_some _ hne
    have hlen2 : window ≤
        (((prices ++ [(pySliceLast prices window).sum /
          ((pySliceLast prices window).length : ℝ)]).length : ℕ) : ℤ) := by
      rw [List.length_append]; push_cast; omega
    obtain ⟨rest, hrest⟩ := ih _ hlen2
    refine ⟨(pySliceLast prices window).sum / ((pySliceLast prices window).length : ℝ)
      :: rest, ?_⟩
    simp only [roll_forward_go_F]
    rw [if_neg hnot, hmean,
      show List.map some prices ++
          [some ((pySliceLast prices window).sum / ((pySliceLast prices window).length : ℝ))] =
        List.map some (prices ++ [(pySliceLast prices window).sum /
          ((pySliceLast prices window).length : ℝ)]) by simp,
      hrest]
    rfl

theorem getLastD_map_some : ∀ (l : List ℝ) (x : ℝ),
    (List.map some l).getLastD (some x) = some (l.getLastD x) := by
  intro l
  induction l with
  | nil => intro x; rfl
  | cons a t ih => intro x; simp only [List.map, List.getLastD_cons]; exact ih a

theorem cumulative_F_ok (current : ℝ) (hc : current ≠ 0) (out : List ℝ) :
    ∃ v : ℝ, cumulative_return_F current (List.map some out) = .ok (some v) := by
  cases out with
  | nil => exact ⟨0, rfl⟩
  | cons a t =>
    refine ⟨t.getLastD a / current - 1, ?_⟩
    unfold cumulative_return_F
    rw [if_neg (by simp), if_neg hc]
    simp only [List.map, List.getLastD_cons, getLastD_map_some]
    simp only [fdiv]
    rw [if_neg hc]
    rfl

theorem pyTail_length_of_le (xs : List ℝ) (n : ℤ) (h0 : 0 ≤ n)
    (h : n ≤ (xs.length : ℤ)) : ((pyTail xs n).length : ℤ) = n := by
  unfold pyTail
  rw [if_pos h0, List.length_drop]
  omega

theorem pyTail_subset (xs : List ℝ) (n : ℤ) : ∀ x ∈ pyTail xs n, x ∈ xs := by
  unfold pyTail
  split <;> exact fun x hx => List.mem_of_mem_drop hx

/-- C9 counterexample: with identical subject and benchmark series the
spread is zero and swapping the two series (a no-op here) cannot flip the
prediction — both orders predict `False`. -/
theorem predict_swap_zero_spread_cex :
    ¬ ((predictResolved [100] [100] 1 1).map (fun r => r.prediction) =
       (predictResolved [100] [100] 1 1).map (fun r => ! r.prediction)) := by
  have h : predictResolved [100] [100] 1 1 = .ok ⟨false, none⟩ := by
    norm_num [predictResolved, pyTail, calculate_future_prediction,
      roll_forward_forecast_F, roll_forward_go_F, pySliceLast, fmean, sumF,
      fadd, fdiv, cumulative_return_F, fsub, fabs, fgt0, calculate_confidence,
      pct_change, pct_change_go, stdF, fsqrtz, fmul, List.getLast?,
      decide_eq_false_iff_not]
  rw [h]
  simp [Except.map]

/-- C9 amended: on the sufficient-data path (window ≥ 1, both series long
enough, nonzero closes) swapping subject and benchmark negates the spread
and leaves the confidence unchanged; the prediction is `spread > 0` before
the swap and `-spread > 0` after it, so it flips exactly when the spread is
nonzero. -/
theorem predict_swap_symmetry (stock_data sp500_data : List ℝ) (lb hz : ℤ)
    (hW : 1 ≤ lb)
    (hs : lb ≤ (stock_data.length : ℤ))
    (hi : lb ≤ (sp500_data.length : ℤ))
    (h0s : ∀ x ∈ stock_data, x ≠ 0)
    (h0i : ∀ x ∈ sp500_data, x ≠ 0) :
    ∃ (s : ℝ) (conf : FVal),
      predictResolved stock_data sp500_data lb hz = .ok ⟨decide (0 < s), conf⟩ ∧
      predictResolved sp500_data stock_data lb hz = .ok ⟨decide (0 < -s), conf⟩ := by
  have hlb0 : (0 : ℤ) ≤ lb := by omega
  have hsclen : ((pyTail stock_data lb).length : ℤ) = lb :=
    pyTail_length_of_le _ _ hlb0 hs
  have hiclen : ((pyTail sp500_data lb).length : ℤ) = lb :=
    pyTail_length_of_le _ _ hlb0 hi
  have hscne : pyTail stock_data lb ≠ [] := by
    intro hcon
    rw [hcon] at hsclen
    simp only [List.length_nil, Nat.cast_zero] at hsclen
    omega
  have hicne : pyTail sp500_data lb ≠ [] := by
    intro hcon
    rw [hcon] at hiclen
    simp only [List.length_nil, Nat.cast_zero] at hiclen
    omega
  have hslast := List.getLast?_eq_getLast_of_ne_nil hscne
  have hilast := List.getLast?_eq_getLast_of_ne_nil hicne
  have hsl0 : (pyTail stock_data lb).getLast hscne ≠ 0 :=
    h0s _ (pyTail_subset _ _ _ (List.getLast_mem hscne))
  have hil0 : (pyTail sp500_data lb).getLast hicne ≠ 0 :=
    h0i _ (pyTail_subset _ _ _ (List.getLast_mem hicne))
  obtain ⟨souts, hrollS⟩ :=
    roll_go_F_ok lb hW hz.toNat (pyTail stock_data lb) (le_of_eq hsclen.symm)
  obtain ⟨iouts, hrollI⟩ :=
    roll_go_F_ok lb hW hz.toNat (pyTail sp500_data lb) (le_of_eq hiclen.symm)
  obtain ⟨sv, hcumS⟩ := cumulative_F_ok _ hsl0 souts
  obtain ⟨iv, hcumI⟩ := cumulative_F_ok _ hil0 iouts
  have hcfp1 : calculate_future_prediction (pyTail stock_data lb)
      (pyTail sp500_data lb) lb hz = .ok (some sv, some iv) := by
    unfold calculate_future_prediction roll_forward_forecast_F
    rw [hslast, hilast]
    simp only [hrollS, hrollI, hcumS, hcumI]
  have hcfp2 : calculate_future_prediction (pyTail sp500_data lb)
      (pyTail stock_data lb) lb hz = .ok (some iv, some sv) := by
    unfold calculate_future_prediction roll_forward_forecast_F
    rw [hilast, hslast]
    simp only [hrollI, hrollS, hcumI, hcumS]
  have h1 : predictResolved stock_data sp500_data lb hz =
      .ok ⟨fgt0 (some (sv - iv)), calculate_confidence (pyTail stock_data lb)
        (pyTail sp500_data lb) (some (sv - iv)) lb hz⟩ := by
    simp only [predictResolved]
    rw [if_neg (not_lt.mpr hs)]
    simp only [hcfp1]
    rfl
  have h2 : predictResolved sp500_data stock_data lb hz =
      .ok ⟨fgt0 (some (iv - sv)), calculate_confidence (pyTail sp500_data lb)
        (pyTail stock_data lb) (some (iv - sv)) lb hz⟩ := by
    simp only [predictResolved]
    rw [if_neg (not_lt.mpr hi)]
    simp only [hcfp2]
    rfl
  refine ⟨sv - iv,
    calculate_confidence (pyTail stock_data lb) (pyTail sp500_data lb)
      (some (sv - iv)) lb hz, ?_, ?_⟩
  · rw [h1]
    rfl
  · rw [h2]
    have hconf : calculate_confidence (pyTail sp500_data lb)
        (pyTail stock_data lb) (some (iv - sv)) lb hz =
        calculate_confidence (pyTail stock_data lb) (pyTail sp500_data lb)
          (some (sv - iv)) lb hz := by
      rw [show (some (iv - sv) : FVal) = fneg (some (sv - iv)) by
        simp [fneg, neg_sub]]
      exact calculate_confidence_swap _ _ _ _ _
    rw [hconf, neg_sub]
    rfl

/-- Witness for C9 at `stock = [100]`, `benchmark = [200]`, window 1,
horizon 1. -/
theorem predict_swap_symmetry_witness :
    ∃ (s : ℝ) (conf : FVal),
      predictResolved [100] [200] 1 1 = .ok ⟨decide (0 < s), conf⟩ ∧
      predictResolved [200] [100] 1 1 = .ok ⟨decide (0 < -s), conf⟩ :=
  predict_swap_symmetry [100] [200] 1 1 (by decide) (by decide) (by decide)
    (by norm_num) (by norm_num)

theorem calculate_confidence_some_ge_half (s_close i_close : List ℝ)
    (spread : FVal) (lb hz : ℤ) (c : ℝ)
    (h : calculate_confidence s_close i_close spread lb hz = some c) :
    1 / 2 ≤ c ∧ c < 1 := by
  simp only [calculate_confidence] at h
  rcases Option.map_eq_some'.mp h with ⟨zv, hzv, hc⟩
  cases spread with
  | none => simp [fabs, fdiv] at hzv
  | some x =>
    cases hstd : stdF (pyTail (List.filterMap id (List.zipWith fsub
        (pct_change s_close) (pct_change i_close))) lb) with
    | none =>
      rw [hstd] at hzv
      simp [fabs, fmul, fdiv] at hzv
    | some v =>
      rw [hstd] at hzv
      by_cases hhz : hz < 0
      · simp [fsqrtz, hhz, fabs, fmul, fdiv] at hzv
      · simp only [fsqrtz, if_neg hhz, Option.map_some', fmul, fabs, fdiv] at hzv
        by_cases hd : max v (1 / 10000) * Real.sqrt (hz : ℝ) = 0
        · rw [if_pos hd] at hzv
          exact absurd hzv (by simp)
        · rw [if_neg hd] at hzv
          have hzv' : |x| / (max v (1 / 10000) * Real.sqrt (hz : ℝ)) = zv :=
            Option.some.inj hzv
          have hdpos : 0 < max v (1 / 10000) * Real.sqrt (hz : ℝ) := by
            have hmax : (0 : ℝ) < max v (1 / 10000) :=
              lt_of_lt_of_le (by norm_num) (le_max_right _ _)
            have hsq : 0 ≤ Real.sqrt (hz : ℝ) := Real.sqrt_nonneg _
            exact lt_of_le_of_ne (mul_nonneg (le_of_lt hmax) hsq) (Ne.symm hd)
          have hznn : 0 ≤ zv := by
            rw [← hzv']
            exact div_nonneg (abs_nonneg x) (le_of_lt hdpos)
          subst hc
          exact ⟨sigmoid_ge_half hznn, sigmoid_lt_one zv⟩

/-- C10: whenever `_calculate_confidence` returns a real (non-NaN) value it
is at least `1/2` (and below `1`), and whenever `predict`'s resolved
pipeline returns a real confidence it is either exactly `0`
(insufficient-data outcome) or in `[1/2, 1)` — never strictly between `0`
and `1/2`. -/
theorem predict_confidence_polarized
    (stock_data sp500_data s_close i_close : List ℝ) (lb hz lb2 hz2 : ℤ)
    (spread : FVal) (r : ForecastResult) (c c2 : ℝ)
    (h1 : predictResolved stock_data sp500_data lb hz = .ok r)
    (h2 : r.confidence = some c)
    (h3 : calculate_confidence s_close i_close spread lb2 hz2 = some c2) :
    (c = 0 ∨ (1 / 2 ≤ c ∧ c < 1)) ∧ (1 / 2 ≤ c2 ∧ c2 < 1) := by
  refine ⟨?_, calculate_confidence_some_ge_half _ _ _ _ _ _ h3⟩
  by_cases hins : (stock_data.length : ℤ) < lb
  · left
    simp only [predictResolved] at h1
    rw [if_pos hins] at h1
    have hr := Except.ok.inj h1
    rw [← hr] at h2
    exact (Option.some.inj h2).symm
  · simp only [predictResolved] at h1
    rw [if_neg hins] at h1
    rcases hcfp : calculate_future_prediction (pyTail stock_data lb)
        (pyTail sp500_data lb) lb hz with e | ⟨sc, ic⟩
    · rw [hcfp] at h1
      exact absurd h1 (fun hh => Except.noConfusion hh)
    · rw [hcfp] at h1
      right
      have hr := Except.ok.inj h1
      rw [← hr] at h2
      exact calculate_confidence_some_ge_half _ _ _ _ _ _ h2

theorem calc_conf_example :
    calculate_confidence [100, 101, 102] [100, 101, 102] (some 0) 10 5 =
      some (1 / 2) := by
  have h5 : (0 : ℝ) < Real.sqrt 5 := Real.sqrt_pos.mpr (by norm_num)
  have hmax : max (0 : ℝ) (1 / 10000) = 1 / 10000 := max_eq_right (by norm_num)
  have hne : (1 / 10000 : ℝ) * Real.sqrt 5 ≠ 0 :=
    ne_of_gt (mul_pos (by norm_num) h5)
  have hpc : pct_change [(100 : ℝ), 101, 102] =
      [none, some (101 / 100 - 1), some (102 / 101 - 1)] := rfl
  have hzip : List.zipWith fsub (pct_change [(100 : ℝ), 101, 102])
      (pct_change [(100 : ℝ), 101, 102]) = [none, some 0, some 0] := by
    rw [hpc]
    norm_num [List.zipWith, fsub]
  have hstd : stdF [(0 : ℝ), 0] = some 0 := by
    norm_num [stdF, Real.sqrt_zero]
  simp only [calculate_confidence]
  rw [hzip, show List.filterMap id [none, some (0 : ℝ), some 0] = [0, 0] from rfl,
    show pyTail [(0 : ℝ), 0] 10 = [0, 0] from rfl, hstd]
  simp only [Option.map_some']
  rw [hmax]
  simp only [fsqrtz]
  rw [if_neg (by norm_num : ¬ (5 : ℤ) < 0)]
  simp only [fmul, fabs, abs_zero, fdiv, Int.cast_ofNat]
  rw [if_neg ?_]
  · rw [zero_div]
    simp only [Option.map_some', sigmoid_zero]
  · show ¬ (1 / 10000 : ℝ) * Real.sqrt ((5 : ℤ) : ℝ) = 0
    norm_num

/-- Witness for C10: insufficient data gives confidence exactly `0`, and a
concrete computed-path confidence equals `1/2 ∈ [1/2, 1)`. -/
theorem predict_confidence_polarized_witness :
    ((0 : ℝ) = 0 ∨ (1 / 2 ≤ (0 : ℝ) ∧ (0 : ℝ) < 1)) ∧
    (1 / 2 ≤ (1 / 2 : ℝ) ∧ (1 / 2 : ℝ) < 1) :=
  predict_confidence_polarized [] [] [100, 101, 102] [100, 101, 102] 1 1 10 5
    (some 0) ⟨false, some 0⟩ 0 (1 / 2) rfl rfl calc_conf_example

end ForecastEngine
